import Mathlib

/-!
Verification development for the DOCX extraction repository.

The main extractor (`debug.py`) reconstructs hierarchical list numbering
for paragraphs of a word-processing document.  Its core pieces are:

* `to_roman` / `to_letter`     — pure numeral formatters;
* `GenerateParaRefsForDocx.get_bullet_number`
                               — the per-paragraph counter tracker that
                                 produces composite labels such as "1.2.3";
* `extract_text_from_paragraph` — strips an already-visible leading numeral
                                 from the paragraph text via a regex;
* `process_docx_file`           — header inference from style / word count /
                                 top-level bullets.

A second stand-alone script (`decode.py`) parses rendered list labels and
keeps a `hierarchical_levels` list which it clears on non-list paragraphs.

All definitions below are shallow embeddings of that Python code.  Strings
are modelled as Lean `String` (lists of characters); character classes of
the Python regexes (`\w`, `\d`, `\s`, `[a-z]`, …) are modelled over the
ASCII range via `Char.isAlphanum`, `Char.isDigit`, `Char.isWhitespace`.
Loop-shaped Python code is embedded with an explicit fuel argument equal to
an upper bound on the number of iterations the Python loop can perform, so
that every definition evaluates by kernel reduction.
-/

/-- Model of Python `str.lower()` applied to the ASCII strings that occur
in the numbering code. -/
def strLower (s : String) : String := String.mk (s.data.map Char.toLower)

/-- Inner `while num >= v: result += sym; num -= v` loop of `to_roman`
(`debug.py` lines 22-25), with fuel.  The caller passes fuel `num + 1`,
enough for every table entry `v ≥ 1`. -/
def whileGeF : Nat → Nat → Nat → List Char → List Char → List Char × Nat
  | 0, num, _, _, acc => (acc, num)
  | fuel + 1, num, v, sym, acc =>
    if v ≤ num then whileGeF fuel (num - v) v sym (acc ++ sym) else (acc, num)

/-- Value/symbol table of `to_roman` (`debug.py` lines 16-20), split so that
the final `(1, "I")` entry can be peeled off in proofs. -/
def romanFront : List (Nat × List Char) :=
  [(1000, ['M']), (900, ['C', 'M']), (500, ['D']), (400, ['C', 'D']),
   (100, ['C']), (90, ['X', 'C']), (50, ['L']), (40, ['X', 'L']),
   (10, ['X']), (9, ['I', 'X']), (5, ['V']), (4, ['I', 'V'])]

/-- Full value/symbol table of `to_roman`. -/
def romanVals : List (Nat × List Char) := romanFront ++ [(1, ['I'])]

/-- One step of the `for v, sym in vals` loop of `to_roman`: the pair is
`(result, num)`. -/
def romanStep (p : List Char × Nat) (q : Nat × List Char) : List Char × Nat :=
  whileGeF (p.2 + 1) p.2 q.1 q.2 p.1

/-- Model of `to_roman` (`debug.py` lines 14-26). -/
def toRoman (num : Nat) (lowercase : Bool) : String :=
  let r := (romanVals.foldl romanStep ([], num)).1
  String.mk (if lowercase then r.map Char.toLower else r)

/-- Loop of `to_letter` (`debug.py` lines 32-34):
`while num > 0: num, rem = divmod(num - 1, 26); result = chr(65+rem) + result`,
with fuel.  The caller passes fuel `num`, enough since the value strictly
decreases each iteration. -/
def toLetterAuxF : Nat → Nat → List Char → List Char
  | 0, _, acc => acc
  | fuel + 1, num, acc =>
    match num with
    | 0 => acc
    | m + 1 => toLetterAuxF fuel (m / 26) (Char.ofNat (65 + m % 26) :: acc)

/-- Model of `to_letter` (`debug.py` lines 29-35): bijective base-26
(A=1 … Z=26, AA=27 …), lower-cased on request. -/
def toLetter (num : Nat) (lowercase : Bool) : String :=
  let r := toLetterAuxF num num []
  String.mk (if lowercase then r.map Char.toLower else r)

/-- Model of Python `s.endswith(suf)` for the format strings. -/
def strEndsWith (s suf : String) : Bool :=
  List.isPrefixOf suf.data.reverse s.data.reverse

/-- Counter/stack state of `GenerateParaRefsForDocx` (`debug.py` lines
50-53): `global_counters` is a `defaultdict(int)` keyed by level,
`global_stack` a plain dict of rendered labels, `last_numId` and
`last_ilvl` remember the previous numbered paragraph (`last_ilvl` starts
at the sentinel `-1`, hence `Int`). -/
structure TrackerState where
  counters : Nat → Nat
  stack : Nat → Option String
  lastNumId : Option String
  lastIlvl : Int

/-- State right after `__init__` / the `clear()` calls in
`process_docx_file` (`debug.py` lines 306-309). -/
def initialState : TrackerState :=
  { counters := fun _ => 0, stack := fun _ => none,
    lastNumId := none, lastIlvl := -1 }

/-- A numbering catalog: `numbering_map` maps a definition id and a level
to an optional `(format, pattern)` entry. -/
def Catalog : Type := String → Nat → Option (String × String)

/-- The catalog of a document with no resolvable numbering definitions. -/
def emptyCat : Catalog := fun _ _ => none

/-- Model of `self.numbering_map.get(numId, {}).get(str(ilvl), ("decimal", "%1"))`
(`debug.py` lines 141, 162): an unknown id or level yields the decimal
default. -/
def lookupFmt (catalog : Catalog) (numId : String) (lvl : Nat) : String × String :=
  (catalog numId lvl).getD ("decimal", "%1")

/-- Format component of `lookupFmt`. -/
def fmtOf (catalog : Catalog) (numId : String) (lvl : Nat) : String :=
  (lookupFmt catalog numId lvl).1

/-- Model of `prev_level_fmt` (`debug.py` lines 165-167): `None` at level 0,
otherwise the format of the immediately shallower level of the current
definition id. -/
def prevFmtAt (catalog : Catalog) (numId : String) (level : Nat) : Option String :=
  if level = 0 then none else some (fmtOf catalog numId (level - 1))

/-- Model of the reset-on-format-change test (`debug.py` line 145):
`self.last_numId and self.last_ilvl == ilvl_int and fmt_level != prev_fmt`. -/
def doReset (catalog : Catalog) (st : TrackerState) (numId : String) (ilvl : Nat) : Bool :=
  match st.lastNumId with
  | none => false
  | some pid =>
    decide (st.lastIlvl = (ilvl : Int)) &&
      decide (fmtOf catalog numId ilvl ≠ fmtOf catalog pid ilvl)

/-- Counters after the optional same-level reset (`debug.py` line 146), the
increment of the current level (line 149) and the zeroing of the deeper
levels `ilvl+1 … 8` (lines 152-153). -/
def countersAfterInc (catalog : Catalog) (st : TrackerState) (numId : String)
    (ilvl : Nat) : Nat → Nat := fun l =>
  if ilvl < l ∧ l ≤ 8 then 0
  else if l = ilvl then
    (if doReset catalog st numId ilvl then 0 else st.counters ilvl) + 1
  else st.counters l

/-- Numeral selection of the label-building loop (`debug.py` lines 170-185):
dispatch on the level format, with the `lowerLetter` case depending on the
previous level's format, and everything else (including `bullet`) rendered
as a plain decimal string. -/
def renderVal (fmt : String) (prevLevelFmt : Option String) (n : Nat) : String :=
  if fmt = "decimal" then toString n
  else if fmt = "upperLetter" then toLetter n false
  else if fmt = "lowerLetter" then
    match prevLevelFmt with
    | some pf => if strEndsWith pf "Letter" then toLetter n true else toString n
    | none => toString n
  else if fmt = "upperRoman" then toRoman n false
  else if fmt = "lowerRoman" then toRoman n true
  else toString n

/-- Rendered numeral of one level inside the label-building loop, given the
counter table `c` in force during the loop. -/
def labelVal (catalog : Catalog) (numId : String) (c : Nat → Nat) (level : Nat) : String :=
  renderVal (fmtOf catalog numId level) (prevFmtAt catalog numId level) (c level)

/-- The `label_parts` list built by the loop over levels `0 … ilvl`
(`debug.py` lines 157-187). -/
def labelParts (catalog : Catalog) (st : TrackerState) (numId : String)
    (ilvl : Nat) : List String :=
  (List.range (ilvl + 1)).map (labelVal catalog numId (countersAfterInc catalog st numId ilvl))

/-- The counter values handed to the numeral-formatting step while building
the label parts (`n = self.global_counters[level]`, `debug.py` line 159). -/
def formatterInputs (catalog : Catalog) (st : TrackerState) (numId : String)
    (ilvl : Nat) : List Nat :=
  (List.range (ilvl + 1)).map (countersAfterInc catalog st numId ilvl)

/-- Core of `get_bullet_number` (`debug.py` lines 140-193) for a paragraph
carrying a non-empty definition id `numId` at level `ilvl`: returns the
updated tracker state and the composite label `".".join(label_parts)`. -/
def observeNum (catalog : Catalog) (st : TrackerState) (numId : String)
    (ilvl : Nat) : TrackerState × String :=
  let c := countersAfterInc catalog st numId ilvl
  ({ counters := c,
     stack := fun l =>
       if l ≤ ilvl then some (labelVal catalog numId c l)
       else if ilvl < l ∧ l ≤ 8 then none
       else st.stack l,
     lastNumId := some numId,
     lastIlvl := (ilvl : Int) },
   String.intercalate "." (labelParts catalog st numId ilvl))

/-- Full `get_bullet_number` on one paragraph: `none` models a paragraph
without a `numPr` element (`debug.py` lines 127-129), and an empty
definition id models a falsy `numId` (lines 137-138); both return the empty
label without touching the tracker state. -/
def observe (catalog : Catalog) (st : TrackerState)
    (ref : Option (String × Nat)) : TrackerState × String :=
  match ref with
  | none => (st, "")
  | some (numId, ilvl) =>
    if numId = "" then (st, "") else observeNum catalog st numId ilvl

/-- Folding `observe` over a paragraph sequence from the freshly cleared
state, collecting the labels in order. -/
def observeSeq (catalog : Catalog) (refs : List (Option (String × Nat))) :
    TrackerState × List String :=
  refs.foldl
    (fun p ref =>
      let r := observe catalog p.1 ref
      (r.1, p.2 ++ [r.2]))
    (initialState, [])

/-- ASCII model of the Python word-character class `[\d\w]` (= `\w`):
letters, digits, or underscore. -/
def isW (c : Char) : Bool := c.isAlphanum || c = '_'

/-- Matcher for the tail `(?:\.[\d\w]+)*[\.\)]\s*` of the stripping regex
(`debug.py` line 202), starting right after the leading `[\d\w]+` run.
Returns the unconsumed remainder on success.  A `.` may either open
another `\.[\d\w]+` group (tried first, as the greedy regex does) or act
as the terminator `[\.\)]` (the fallback the regex engine reaches by
backtracking one group).  Fuel is decremented once per group; the caller
passes the length of the list, enough since every group consumes at least
two characters. -/
def matchTailF : Nat → List Char → Option (List Char)
  | 0, _ => none
  | _ + 1, [] => none
  | fuel + 1, c :: rest =>
    if c = '.' then
      if (rest.takeWhile isW).isEmpty then some (rest.dropWhile Char.isWhitespace)
      else
        match matchTailF fuel (rest.dropWhile isW) with
        | some r => some r
        | none => some (rest.dropWhile Char.isWhitespace)
    else if c = ')' then some (rest.dropWhile Char.isWhitespace)
    else none

/-- Model of `re.sub(r'^[\d\w]+(?:\.[\d\w]+)*[\.\)]\s*', '', text)`
(`debug.py` line 202): if the anchored pattern matches a prefix of the
text, remove that (greedy) match, otherwise return the text unchanged. -/
def stripLeadingNumeral (s : String) : String :=
  let cs := s.data
  let rest := cs.dropWhile isW
  if (cs.takeWhile isW).isEmpty then s
  else
    match matchTailF rest.length rest with
    | some r => String.mk r
    | none => s

/-- Model of `extract_text_from_paragraph` (`debug.py` lines 195-204) given
the raw visible text of the paragraph: produce the label via
`get_bullet_number`, and strip a leading numeral from the text only when
the label is non-empty (`if bullet:`). -/
def extractTextFromParagraph (catalog : Catalog) (st : TrackerState)
    (ref : Option (String × Nat)) (rawText : String) :
    TrackerState × String × String :=
  let r := observe catalog st ref
  (r.1, r.2, if r.2 = "" then rawText else stripLeadingNumeral rawText)

/-- Model of the substring test `"heading" in style_name` (`debug.py` line
329): `startsWithL needle hay` checks that `hay` starts with `needle`. -/
def startsWithL : List Char → List Char → Bool
  | [], _ => true
  | _ :: _, [] => false
  | c :: cs, d :: ds => c == d && startsWithL cs ds

/-- Contiguous-substring containment over character lists. -/
def containsSub (needle : List Char) : List Char → Bool
  | [] => needle.isEmpty
  | c :: rest => startsWithL needle (c :: rest) || containsSub needle rest

/-- Model of `"heading" in style_name` with
`style_name = paragraph.style.name.lower()` (`debug.py` lines 320, 329). -/
def headingInStyle (styleName : String) : Bool :=
  containsSub "heading".data (strLower styleName).data

/-- Word-count helper: model of `len(para_text.split())` (`debug.py` line
321), counting maximal non-whitespace runs. -/
def countWordsAux : List Char → Bool → Nat
  | [], _ => 0
  | c :: rest, inWord =>
    if c.isWhitespace then countWordsAux rest false
    else (if inWord then 0 else 1) + countWordsAux rest true

/-- Model of `word_count = len(para_text.split())`. -/
def wordCount (s : String) : Nat := countWordsAux s.data false

/-- Model of `is_top_level = bullet == "" or "." not in bullet`
(`debug.py` line 324). -/
def isTopLevel (bullet : String) : Bool :=
  bullet == "" || !(bullet.data.contains '.')

/-- Model of Python `str.strip()` (trim ASCII/Unicode whitespace at both
ends), used for `para_text.strip()` (`debug.py` line 330). -/
def strTrim (s : String) : String :=
  String.mk (((s.data.dropWhile Char.isWhitespace).reverse.dropWhile Char.isWhitespace).reverse)

/-- Header update of `process_docx_file` (`debug.py` lines 326-333): the
header becomes the trimmed paragraph text if the style name contains
"heading", or if the text is short (at most 6 words) and the bullet is
top-level; otherwise the current header is kept. -/
def updateHeader (styleName bullet paraText currentHeader : String) : String :=
  if headingInStyle styleName = true ∨ (wordCount paraText ≤ 6 ∧ isTopLevel bullet = true)
  then strTrim paraText
  else currentHeader

/-- Model of Python `s.rstrip(".")`: drop trailing dots. -/
def rstripDots (s : String) : String :=
  String.mk ((s.data.reverse.dropWhile (fun c => c = '.')).reverse)

/-- Model of Python `s.lstrip(".")`: drop leading dots. -/
def lstripDots (s : String) : String :=
  String.mk (s.data.dropWhile (fun c => c = '.'))

/-- The strings matched by the case-insensitive small-roman alternation
`^(i{1,3}|iv|v|vi{0,3}|ix|x)$` of `decode.py` line 22. -/
def romanSmallSet : List String :=
  ["i", "ii", "iii", "iv", "v", "vi", "vii", "viii", "ix", "x"]

/-- Single lowercase ASCII letter test, model of `^[a-z]$`. -/
def isSingleLower (s : String) : Bool :=
  match s.data with
  | [c] => c.isLower
  | _ => false

/-- Single uppercase ASCII letter test, model of `^[A-Z]$`. -/
def isSingleUpper (s : String) : Bool :=
  match s.data with
  | [c] => c.isUpper
  | _ => false

/-- Splitter on the dot character used to model the `\d+(\.\d+)*`-shaped
regexes of `decode.py`. -/
def splitOnDotAux : List Char → List Char → List (List Char)
  | [], acc => [acc.reverse]
  | c :: rest, acc =>
    if c = '.' then acc.reverse :: splitOnDotAux rest []
    else splitOnDotAux rest (c :: acc)

/-- Non-empty all-digit run, model of `\d+`. -/
def allDigits (l : List Char) : Bool := !l.isEmpty && l.all Char.isDigit

/-- Model of `^\d+$` on a string. -/
def isDigitsStr (s : String) : Bool := allDigits s.data

/-- Model of `^\d+\.\d+$`. -/
def isNumDot (s : String) : Bool :=
  match splitOnDotAux s.data [] with
  | [a, b] => allDigits a && allDigits b
  | _ => false

/-- Model of `^\d+\.\d+\.\d+$`. -/
def isNumDotDot (s : String) : Bool :=
  match splitOnDotAux s.data [] with
  | [a, b, c] => allDigits a && allDigits b && allDigits c
  | _ => false

/-- Model of `get_bullet_level` (`decode.py` lines 16-35), returning the
`(level, type, value)` triple. -/
def getBulletLevel (bullet : String) : Nat × String × String :=
  if bullet = "" then (0, "none", "")
  else
    let clean := rstripDots (strTrim bullet)
    if romanSmallSet.contains (strLower clean) then (3, "roman", clean)
    else if isSingleLower clean then (2, "letter", clean)
    else if isSingleUpper clean then (2, "letter-upper", clean)
    else if isDigitsStr clean then (1, "number", clean)
    else if isNumDotDot clean then (3, "number-dot-dot", clean)
    else if isNumDot clean then (2, "number-dot", clean)
    else (0, "unknown", clean)

/-- Model of `build_hierarchical_number` (`decode.py` lines 38-55): trims
the level list to the bullet's depth, writes the bullet value at its slot,
and returns the updated list with the dot-joined path. -/
def buildHierarchicalNumber (info : Nat × String × String) (levels : List String) :
    List String × String :=
  if info.1 = 0 then (levels, "")
  else
    let l1 := levels.take info.1
    let l2 := if l1.length < info.1 then l1 ++ [info.2.2] else l1.set (info.1 - 1) info.2.2
    (l2, lstripDots (String.intercalate "." l2))

/-- One paragraph of the main loop of `decode.py` (lines 71-77): a list
paragraph (`some rawBullet`) goes through `get_bullet_level` and
`build_hierarchical_number`; a non-list paragraph clears
`hierarchical_levels` and yields the empty bullet text. -/
def decodePara (levels : List String) (para : Option String) : List String × String :=
  match para with
  | none => ([], "")
  | some rawBullet => buildHierarchicalNumber (getBulletLevel rawBullet) levels

/-- Non-empty token of word characters: one alternative of the stripping
grammar as the code actually implements it (`[\d\w]+`). -/
def isWordTok (t : List Char) : Prop := t ≠ [] ∧ ∀ c ∈ t, isW c = true

/-- Non-empty token of alphanumeric characters: the token class named by
the specification ("one or more alphanumeric tokens"). -/
def isAlphanumTok (t : List Char) : Prop := t ≠ [] ∧ ∀ c ∈ t, c.isAlphanum = true

/-- Dot-joined token list: `t1.t2.….tk`. -/
def joinDots : List (List Char) → List Char
  | [] => []
  | [t] => t
  | t :: ts => t ++ '.' :: joinDots ts

/-- The language actually stripped by the code's regex
`[\d\w]+(?:\.[\d\w]+)*[\.\)]\s*`: one or more word-character tokens joined
by dots, a terminator `.` or `)`, and trailing (possibly absent)
whitespace, all of which is removed. -/
def codeGrammarMatch (p : List Char) : Prop :=
  ∃ (toks : List (List Char)) (term : Char) (ws : List Char),
    toks ≠ [] ∧ (∀ t ∈ toks, isWordTok t) ∧ (term = '.' ∨ term = ')') ∧
    (∀ c ∈ ws, c.isWhitespace = true) ∧ p = joinDots toks ++ term :: ws

/-- The language described verbatim by the specification sentence: one or
more alphanumeric tokens joined by dots, a terminator `.` or `)`, and
following whitespace. -/
def specGrammarMatch (p : List Char) : Prop :=
  ∃ (toks : List (List Char)) (term : Char) (ws : List Char),
    toks ≠ [] ∧ (∀ t ∈ toks, isAlphanumTok t) ∧ (term = '.' ∨ term = ')') ∧
    (∀ c ∈ ws, c.isWhitespace = true) ∧ p = joinDots toks ++ term :: ws

/-- Catalog giving definition id "n1" the Decimal format at every level. -/
def n1Cat : Catalog := fun id _ => if id = "n1" then some ("decimal", "%1") else none

/-- Catalog resolving every level of every definition id to the Bullet
format. -/
def bulletCat : Catalog := fun _ _ => some ("bullet", "•")

lemma toLetterAuxF_length (fuel : Nat) :
    ∀ num acc, acc.length ≤ (toLetterAuxF fuel num acc).length := by
  induction fuel with
  | zero => intro num acc; exact Nat.le_refl _
  | succ f ih =>
    intro num acc
    cases num with
    | zero => exact Nat.le_refl _
    | succ m =>
      calc acc.length ≤ (Char.ofNat (65 + m % 26) :: acc).length := by simp
        _ ≤ _ := ih (m / 26) _

lemma toLetter_ne_empty (n : Nat) (b : Bool) (h : 1 ≤ n) : toLetter n b ≠ "" := by
  obtain ⟨m, rfl⟩ : ∃ m, n = m + 1 := ⟨n - 1, by omega⟩
  have hlen : 1 ≤ (toLetterAuxF (m + 1) (m + 1) []).length := by
    have heq : toLetterAuxF (m + 1) (m + 1) [] =
        toLetterAuxF m (m / 26) [Char.ofNat (65 + m % 26)] := rfl
    rw [heq]
    calc (1 : Nat) = ([Char.ofNat (65 + m % 26)] : List Char).length := by simp
      _ ≤ _ := toLetterAuxF_length m (m / 26) _
  intro hc
  have hd := congrArg (fun s => s.data.length) hc
  simp only [toLetter] at hd
  cases b <;> simp at hd <;> (rw [hd] at hlen; simp at hlen)

lemma whileGeF_acc_ne (fuel : Nat) :
    ∀ (num v : Nat) (sym acc : List Char), acc ≠ [] →
    (whileGeF fuel num v sym acc).1 ≠ [] := by
  induction fuel with
  | zero => intro num v sym acc h; exact h
  | succ f ih =>
    intro num v sym acc h
    unfold whileGeF
    by_cases hv : v ≤ num
    · rw [if_pos hv]
      exact ih _ _ _ _ (by simp [h])
    · rw [if_neg hv]
      exact h

lemma whileGeF_fires (f num v : Nat) (sym acc : List Char)
    (hs : sym ≠ []) (hv : v ≤ num) :
    (whileGeF (f + 1) num v sym acc).1 ≠ [] := by
  unfold whileGeF
  rw [if_pos hv]
  exact whileGeF_acc_ne _ _ _ _ _ (by simp [hs])

lemma romanStep_inv (p : List Char × Nat) (q : Nat × List Char) (n0 : Nat)
    (hq : q.2 ≠ []) (hp : p.1 ≠ [] ∨ p.2 = n0) :
    (romanStep p q).1 ≠ [] ∨ (romanStep p q).2 = n0 := by
  rcases hp with h | h
  · exact Or.inl (whileGeF_acc_ne _ _ _ _ _ h)
  · by_cases hv : q.1 ≤ p.2
    · exact Or.inl (whileGeF_fires _ _ _ _ _ hq hv)
    · right
      show (whileGeF (p.2 + 1) p.2 q.1 q.2 p.1).2 = n0
      unfold whileGeF
      rw [if_neg hv]
      exact h

lemma roman_fold_inv (l : List (Nat × List Char)) (n0 : Nat) :
    ∀ p : List Char × Nat, (∀ q ∈ l, q.2 ≠ []) → (p.1 ≠ [] ∨ p.2 = n0) →
    ((l.foldl romanStep p).1 ≠ [] ∨ (l.foldl romanStep p).2 = n0) := by
  induction l with
  | nil => intro p _ hp; exact hp
  | cons q rest ih =>
    intro p hq hp
    exact ih _ (fun x hx => hq x (List.mem_cons_of_mem _ hx))
      (romanStep_inv p q n0 (hq q (List.mem_cons_self _ _)) hp)

lemma toRoman_ne_empty (n : Nat) (b : Bool) (h : 1 ≤ n) : toRoman n b ≠ "" := by
  have hsplit : romanVals.foldl romanStep ([], n) =
      romanStep (romanFront.foldl romanStep ([], n)) (1, ['I']) := by
    have h1 : romanVals = romanFront ++ [(1, ['I'])] := rfl
    rw [h1, List.foldl_append, List.foldl_cons, List.foldl_nil]
  have hfront := roman_fold_inv romanFront n ([], n) (by decide) (Or.inr rfl)
  have hfinal : (romanStep (romanFront.foldl romanStep ([], n)) (1, ['I'])).1 ≠ [] := by
    rcases hfront with h1 | h2
    · exact whileGeF_acc_ne _ _ _ _ _ h1
    · show (whileGeF ((romanFront.foldl romanStep ([], n)).2 + 1)
        (romanFront.foldl romanStep ([], n)).2 1 ['I']
        (romanFront.foldl romanStep ([], n)).1).1 ≠ []
      exact whileGeF_fires _ _ _ _ _ (by decide) (by rw [h2]; exact h)
  intro hc
  have hd := congrArg (fun s => s.data.length) hc
  simp only [toRoman, hsplit] at hd
  cases b <;> simp at hd <;> exact hfinal hd

lemma countersAfterInc_self (catalog : Catalog) (st : TrackerState)
    (numId : String) (ilvl : Nat) :
    1 ≤ countersAfterInc catalog st numId ilvl ilvl := by
  unfold countersAfterInc
  rw [if_neg (by omega), if_pos rfl]
  omega

lemma formatterInputs_getLast (catalog : Catalog) (st : TrackerState)
    (numId : String) (ilvl : Nat) :
    (formatterInputs catalog st numId ilvl).getLast? =
      some (countersAfterInc catalog st numId ilvl ilvl) := by
  unfold formatterInputs
  rw [List.range_succ, List.map_append]
  simp

/-- C1 counterexample: the claim predicts that after a paragraph without a
numbering reference, the next numbered paragraph under the same definition
id restarts at 1.  In the code the break leaves the tracker untouched, so
the sequence (n1,0), break, (n1,0) yields labels "1", "", "2" (not "1"),
and the counter at level 0 still holds 1 right after the break. -/
theorem c1_no_numbering_counterexample :
    (observeSeq emptyCat [some ("n1", 0), none, some ("n1", 0)]).2 = ["1", "", "2"] ∧
    (observeSeq emptyCat [some ("n1", 0), none, some ("n1", 0)]).2 ≠ ["1", "", "1"] ∧
    (observe emptyCat (observeSeq emptyCat [some ("n1", 0)]).1 none).1.counters 0 = 1 := by
  refine ⟨by decide, by decide, by decide⟩

/-- C1 amended: a paragraph without a numbering reference leaves the
tracker state entirely unchanged (no reset of counters, rendered labels,
last definition id or last level) and yields an empty label, so the next
numbered paragraph under the same definition id continues counting where it
left off; only the separate decode script clears its hierarchical-levels
list on a non-list paragraph. -/
theorem c1_no_numbering_amended :
    (∀ catalog st, observe catalog st none = (st, "")) ∧
    (∀ levels, decodePara levels none = ([], "")) ∧
    (observeSeq emptyCat [some ("n1", 0), none, some ("n1", 0)]).2 = ["1", "", "2"] :=
  ⟨fun _ _ => rfl, fun _ => rfl, by decide⟩

/-- C2: from the freshly cleared state, with "n1" resolving to Decimal at
every level, observing levels 0, 1, 1, 0 yields the composite labels
"1", "1.1", "1.2", "2". -/
theorem c2_decimal_sequence :
    (observeSeq n1Cat [some ("n1", 0), some ("n1", 1), some ("n1", 1), some ("n1", 0)]).2 =
      ["1", "1.1", "1.2", "2"] := by decide

/-- C3 counterexample: a paragraph sequence may pass the value 0 to the
numeral-formatting step.  The single-paragraph sequence (n1, level 1) from
the fresh state formats counter values [0, 1] (level 0 was never visited)
and produces the label "0.1". -/
theorem c3_formatter_zero_counterexample :
    0 ∈ formatterInputs emptyCat initialState "n1" 1 ∧
    ¬(∀ v ∈ formatterInputs emptyCat initialState "n1" 1, 1 ≤ v) ∧
    (observeSeq emptyCat [some ("n1", 1)]).2 = ["0.1"] := by
  refine ⟨by decide, by decide, by decide⟩

/-- C3 amended: the counter value of the observed level itself — the last
value handed to the formatting step — is always at least 1, but shallower
levels may contribute 0 when intermediate levels were skipped; and the
letter and roman formatters never fail for values at least 1 (they return a
non-empty numeral). -/
theorem c3_formatter_values_amended :
    (∀ (catalog : Catalog) (st : TrackerState) (numId : String) (ilvl : Nat),
       1 ≤ countersAfterInc catalog st numId ilvl ilvl ∧
       (formatterInputs catalog st numId ilvl).getLast? =
         some (countersAfterInc catalog st numId ilvl ilvl)) ∧
    (∀ (n : Nat) (b : Bool), 1 ≤ n → toLetter n b ≠ "" ∧ toRoman n b ≠ "") :=
  ⟨fun catalog st numId ilvl =>
    ⟨countersAfterInc_self catalog st numId ilvl, formatterInputs_getLast catalog st numId ilvl⟩,
   fun n b h => ⟨toLetter_ne_empty n b h, toRoman_ne_empty n b h⟩⟩

/-- C3 witness: the amended theorem applied at concrete inputs. -/
theorem c3_formatter_values_witness :
    1 ≤ countersAfterInc emptyCat initialState "n1" 0 0 ∧
    toLetter 28 true ≠ "" ∧ toRoman 14 false ≠ "" :=
  ⟨(c3_formatter_values_amended.1 emptyCat initialState "n1" 0).1,
   (c3_formatter_values_amended.2 28 true (by decide)).1,
   (c3_formatter_values_amended.2 14 false (by decide)).2⟩

/-- C4 counterexample: a paragraph whose produced label is "1.1" (non-empty
and containing a dot) does overwrite the current header when its style name
contains "heading" — the claim's "regardless of style" fails. -/
theorem c4_header_counterexample :
    (observeSeq emptyCat [some ("n1", 0), some ("n1", 1)]).2 = ["1", "1.1"] ∧
    ("1.1" : String) ≠ "" ∧ ("1.1" : String).data.contains '.' = true ∧
    updateHeader "Heading 1" "1.1" "Clause body text about obligations" "old" =
      "Clause body text about obligations" ∧
    ("Clause body text about obligations" : String) ≠ "old" := by
  refine ⟨by decide, by decide, by decide, by decide, by decide⟩

/-- C4 amended: a paragraph with a non-top-level label (non-empty,
containing a dot) whose style name does not contain "heading" never
overwrites the current inferred section header, regardless of its word
count. -/
theorem c4_header_amended (styleName bullet paraText currentHeader : String)
    (hstyle : headingInStyle styleName = false)
    (hne : bullet ≠ "") (hdot : bullet.data.contains '.' = true) :
    updateHeader styleName bullet paraText currentHeader = currentHeader := by
  unfold updateHeader
  rw [if_neg]
  rintro (h | ⟨h6, htop⟩)
  · rw [hstyle] at h
    exact Bool.false_ne_true h
  · unfold isTopLevel at htop
    simp [hne] at htop
    simp at hdot
    exact htop hdot

/-- C4 witness: the amended theorem applied at a concrete paragraph. -/
theorem c4_header_witness :
    updateHeader "Normal" "2.1" "Some body" "hdr" = "hdr" :=
  c4_header_amended "Normal" "2.1" "Some body" "hdr" (by decide) (by decide) (by decide)

/-- C6: observing a paragraph at level `ilvl` never changes the counters of
any strictly shallower level. -/
theorem c6_shallower_counters_unchanged (catalog : Catalog) (st : TrackerState)
    (numId : String) (ilvl i : Nat) (h : i < ilvl) :
    (observe catalog st (some (numId, ilvl))).1.counters i = st.counters i := by
  show (if numId = "" then (st, "") else observeNum catalog st numId ilvl).1.counters i =
    st.counters i
  by_cases hn : numId = ""
  · rw [if_pos hn]
  · rw [if_neg hn]
    show countersAfterInc catalog st numId ilvl i = st.counters i
    unfold countersAfterInc
    rw [if_neg (by omega), if_neg (by omega)]

/-- C6 witness: the theorem applied at a concrete state and levels. -/
theorem c6_shallower_counters_witness :
    (observe emptyCat initialState (some ("n1", 2))).1.counters 1 =
      initialState.counters 1 :=
  c6_shallower_counters_unchanged emptyCat initialState "n1" 2 1 (by decide)

/-- C7: immediately after observing a numbered paragraph at level `ilvl`,
every deeper level `i` (within the nine-level array, `i ≤ 8`) has counter 0
and a cleared cached label. -/
theorem c7_deeper_levels_reset (catalog : Catalog) (st : TrackerState)
    (numId : String) (ilvl i : Nat) (h1 : ilvl < i) (h2 : i ≤ 8) :
    (observeNum catalog st numId ilvl).1.counters i = 0 ∧
    (observeNum catalog st numId ilvl).1.stack i = none := by
  constructor
  · show countersAfterInc catalog st numId ilvl i = 0
    unfold countersAfterInc
    rw [if_pos ⟨h1, h2⟩]
  · show (if i ≤ ilvl then some (labelVal catalog numId (countersAfterInc catalog st numId ilvl) i)
      else if ilvl < i ∧ i ≤ 8 then none else st.stack i) = none
    rw [if_neg (by omega), if_pos ⟨h1, h2⟩]

/-- C7 witness: the theorem applied at a concrete state and levels. -/
theorem c7_deeper_levels_witness :
    (observeNum emptyCat initialState "n1" 0).1.counters 1 = 0 ∧
    (observeNum emptyCat initialState "n1" 0).1.stack 1 = none :=
  c7_deeper_levels_reset emptyCat initialState "n1" 0 1 (by decide) (by decide)

/-- C8: looking up a (definitionId, level) pair absent from the catalog
returns the default Decimal format, and a sequence referencing an undefined
definition id renders decimal labels starting at 1. -/
theorem c8_missing_definition_default :
    (∀ (catalog : Catalog) (numId : String) (lvl : Nat), catalog numId lvl = none →
       lookupFmt catalog numId lvl = ("decimal", "%1")) ∧
    (observeSeq emptyCat [some ("undef", 0), some ("undef", 0)]).2 = ["1", "2"] := by
  constructor
  · intro catalog numId lvl h
    simp [lookupFmt, h]
  · decide

/-- C8 witness: the theorem applied to a concrete absent pair. -/
theorem c8_missing_definition_witness :
    lookupFmt emptyCat "undef" 3 = ("decimal", "%1") :=
  c8_missing_definition_default.1 emptyCat "undef" 3 rfl

/-- C9: a LowerLetter level is rendered as a lowercase bijective base-26
letter string exactly when the immediately shallower level's format is a
letter-family kind (UpperLetter or LowerLetter); for every other shallower
format — and at level 0, which has no shallower level — it is rendered as
the plain decimal string of the value. -/
theorem c9_lower_letter_parent_rule (n : Nat) :
    renderVal "lowerLetter" none n = toString n ∧
    renderVal "lowerLetter" (some "decimal") n = toString n ∧
    renderVal "lowerLetter" (some "upperRoman") n = toString n ∧
    renderVal "lowerLetter" (some "lowerRoman") n = toString n ∧
    renderVal "lowerLetter" (some "bullet") n = toString n ∧
    renderVal "lowerLetter" (some "upperLetter") n = toLetter n true ∧
    renderVal "lowerLetter" (some "lowerLetter") n = toLetter n true := by
  refine ⟨?_, ?_, ?_, ?_, ?_, ?_, ?_⟩ <;>
    simp [renderVal,
      (by decide : strEndsWith "decimal" "Letter" = false),
      (by decide : strEndsWith "upperRoman" "Letter" = false),
      (by decide : strEndsWith "lowerRoman" "Letter" = false),
      (by decide : strEndsWith "bullet" "Letter" = false),
      (by decide : strEndsWith "upperLetter" "Letter" = true),
      (by decide : strEndsWith "lowerLetter" "Letter" = true)]

/-- C10: when the resolved format of a level is not one of the five handled
kinds (decimal, upperLetter, lowerLetter, upperRoman, lowerRoman) — in
particular the `bullet` format — the composite-label component of that
level is the plain decimal string of the counter value. -/
theorem c10_bullet_renders_decimal (catalog : Catalog) (st : TrackerState)
    (numId : String) (ilvl level : Nat) (hle : level ≤ ilvl)
    (h1 : fmtOf catalog numId level ≠ "decimal")
    (h2 : fmtOf catalog numId level ≠ "upperLetter")
    (h3 : fmtOf catalog numId level ≠ "lowerLetter")
    (h4 : fmtOf catalog numId level ≠ "upperRoman")
    (h5 : fmtOf catalog numId level ≠ "lowerRoman") :
    (labelParts catalog st numId ilvl)[level]? =
      some (toString (countersAfterInc catalog st numId ilvl level)) := by
  have hlt : level < ilvl + 1 := by omega
  simp [labelParts, List.getElem?_range, hlt, labelVal, renderVal, h1, h2, h3, h4, h5]

/-- C10 witness: the theorem applied with a concrete all-bullet catalog,
under which two top-level bulleted items receive labels "1" and "2". -/
theorem c10_bullet_renders_decimal_witness :
    (labelParts bulletCat initialState "b1" 0)[0]? =
      some (toString (countersAfterInc bulletCat initialState "b1" 0 0)) ∧
    (observeSeq bulletCat [some ("b1", 0), some ("b1", 0)]).2 = ["1", "2"] :=
  ⟨c10_bullet_renders_decimal bulletCat initialState "b1" 0 0 (by decide) (by decide)
    (by decide) (by decide) (by decide) (by decide),
   by decide⟩

lemma joinDots_cons (w : List Char) (gs : List (List Char)) :
    joinDots (w :: gs) = w ++ (gs.map (fun g => '.' :: g)).join := by
  induction gs generalizing w with
  | nil => simp [joinDots]
  | cons g gs ih =>
    show joinDots (w :: g :: gs) = _
    rw [joinDots, ih]
    all_goals simp

lemma takeWhile_append_all (p : Char → Bool) :
    ∀ a b : List Char, (∀ c ∈ a, p c = true) →
      (∀ c x, b = c :: x → p c = false) →
      ((a ++ b).takeWhile p = a ∧ (a ++ b).dropWhile p = b) := by
  intro a
  induction a with
  | nil =>
    intro b _ hb
    cases b with
    | nil => simp
    | cons c x =>
      simp [List.takeWhile_cons, List.dropWhile_cons, hb c x rfl]
  | cons c a ih =>
    intro b ha hb
    have hc : p c = true := ha c (List.mem_cons_self _ _)
    have hrest := ih b (fun d hd => ha d (List.mem_cons_of_mem _ hd)) hb
    simp [List.takeWhile_cons, List.dropWhile_cons, hc, hrest.1, hrest.2]

lemma matchTailF_sound : ∀ (fuel : Nat) (cs r : List Char), matchTailF fuel cs = some r →
    ∃ (gs : List (List Char)) (term : Char) (ws : List Char),
      (∀ g ∈ gs, g ≠ [] ∧ ∀ c ∈ g, isW c = true) ∧
      (term = '.' ∨ term = ')') ∧ (∀ c ∈ ws, c.isWhitespace = true) ∧
      cs = (gs.map (fun g => '.' :: g)).join ++ term :: ws ++ r := by
  intro fuel
  induction fuel with
  | zero => intro cs r h; simp [matchTailF] at h
  | succ f ih =>
    intro cs r h
    match cs with
    | [] => simp [matchTailF] at h
    | c :: rest =>
      simp only [matchTailF] at h
      by_cases hc : c = '.'
      · subst hc
        rw [if_pos rfl] at h
        by_cases hw : (rest.takeWhile isW).isEmpty = true
        · rw [if_pos hw] at h
          injection h with h
          refine ⟨[], '.', rest.takeWhile Char.isWhitespace, by simp, Or.inl rfl,
            fun d hd => List.mem_takeWhile_imp hd, ?_⟩
          rw [← h]
          simp [List.takeWhile_append_dropWhile]
        · rw [if_neg hw] at h
          cases hm : matchTailF f (rest.dropWhile isW) with
          | some r2 =>
            rw [hm] at h
            simp at h
            subst h
            obtain ⟨gs, term, ws, hgs, hterm, hws, heq⟩ := ih (rest.dropWhile isW) r2 hm
            refine ⟨rest.takeWhile isW :: gs, term, ws, ?_, hterm, hws, ?_⟩
            · intro g hg
              rcases List.mem_cons.mp hg with rfl | hg2
              · refine ⟨?_, fun ch hch => List.mem_takeWhile_imp hch⟩
                intro hnil
                rw [hnil] at hw
                exact hw rfl
              · exact hgs g hg2
            · conv_lhs => rw [← List.takeWhile_append_dropWhile (p := isW) (l := rest), heq]
              simp
          | none =>
            rw [hm] at h
            simp at h
            refine ⟨[], '.', rest.takeWhile Char.isWhitespace, by simp, Or.inl rfl,
              fun d hd => List.mem_takeWhile_imp hd, ?_⟩
            rw [← h]
            simp [List.takeWhile_append_dropWhile]
      · rw [if_neg hc] at h
        by_cases hp : c = ')'
        · subst hp
          rw [if_pos rfl] at h
          injection h with h
          refine ⟨[], ')', rest.takeWhile Char.isWhitespace, by simp, Or.inr rfl,
            fun d hd => List.mem_takeWhile_imp hd, ?_⟩
          rw [← h]
          simp [List.takeWhile_append_dropWhile]
        · rw [if_neg hp] at h
          simp at h

lemma matchTailF_head_some (fuel : Nat) (c : Char) (rest : List Char)
    (hc : c = '.' ∨ c = ')') : ∃ r, matchTailF (fuel + 1) (c :: rest) = some r := by
  rcases hc with rfl | rfl
  · simp only [matchTailF, if_pos rfl]
    by_cases hw : (rest.takeWhile isW).isEmpty = true
    · rw [if_pos hw]
      exact ⟨_, rfl⟩
    · rw [if_neg hw]
      cases hm : matchTailF fuel (rest.dropWhile isW) with
      | some r => exact ⟨r, by simp⟩
      | none => exact ⟨List.dropWhile Char.isWhitespace rest, by simp⟩
  · have hne : ¬((')' : Char) = '.') := by decide
    simp only [matchTailF, if_neg hne, if_pos rfl]
    exact ⟨_, rfl⟩

lemma codeGrammarMatch_decomp (p : List Char) (hp : codeGrammarMatch p) :
    ∃ (t1 : List Char) (c : Char) (rs : List Char),
      p = t1 ++ c :: rs ∧ t1 ≠ [] ∧ (∀ ch ∈ t1, isW ch = true) ∧ (c = '.' ∨ c = ')') := by
  obtain ⟨toks, term, ws, htne, htoks, hterm, hws, hpeq⟩ := hp
  cases toks with
  | nil => exact absurd rfl htne
  | cons t1 ts =>
    obtain ⟨ht1ne, ht1w⟩ := htoks t1 (List.mem_cons_self _ _)
    rw [joinDots_cons] at hpeq
    cases ts with
    | nil =>
      refine ⟨t1, term, ws, ?_, ht1ne, ht1w, hterm⟩
      simpa using hpeq
    | cons t2 ts2 =>
      refine ⟨t1, '.', t2 ++ (ts2.map (fun g => '.' :: g)).join ++ term :: ws,
        ?_, ht1ne, ht1w, Or.inl rfl⟩
      rw [hpeq]
      simp

lemma strip_some_grammar (s : String) (r : List Char)
    (hw : (s.data.takeWhile isW).isEmpty = false)
    (hm : matchTailF (s.data.dropWhile isW).length (s.data.dropWhile isW) = some r) :
    ∃ p, codeGrammarMatch p ∧ p ≠ [] ∧ s.data = p ++ r := by
  obtain ⟨gs, term, ws, hgs, hterm, hws, hrest⟩ := matchTailF_sound _ _ _ hm
  have htw : s.data.takeWhile isW ≠ [] := by
    intro hnil
    rw [hnil] at hw
    simp at hw
  refine ⟨s.data.takeWhile isW ++ ((gs.map (fun g => '.' :: g)).join ++ term :: ws),
    ⟨s.data.takeWhile isW :: gs, term, ws, by simp, ?_, hterm, hws, ?_⟩, ?_, ?_⟩
  · intro g hg
    rcases List.mem_cons.mp hg with rfl | hg2
    · exact ⟨htw, fun ch hch => List.mem_takeWhile_imp hch⟩
    · exact hgs g hg2
  · rw [joinDots_cons]
    simp
  · simp [htw]
  · conv_lhs => rw [← List.takeWhile_append_dropWhile (p := isW) (l := s.data), hrest]
    simp

lemma strip_eq_of_some (s : String) (r : List Char)
    (hw : (s.data.takeWhile isW).isEmpty = false)
    (hm : matchTailF (s.data.dropWhile isW).length (s.data.dropWhile isW) = some r) :
    stripLeadingNumeral s = String.mk r := by
  simp [stripLeadingNumeral, hw, hm]

/-- C5 counterexample: on the text "_a) x" the code strips the leading
"_a) " (the regex token class is the word class, which admits the
underscore), yet no prefix of that text belongs to the
alphanumeric-token grammar stated by the specification — so the claim that
exactly a spec-grammar prefix is removed fails. -/
theorem c5_strip_counterexample :
    stripLeadingNumeral "_a) x" = "x" ∧
    ¬∃ p t, specGrammarMatch p ∧ ("_a) x" : String).data = p ++ t := by
  constructor
  · decide
  · rintro ⟨p, t, hp, heq⟩
    obtain ⟨toks, term, ws, htne, htoks, _, _, hpeq⟩ := hp
    cases toks with
    | nil => exact absurd rfl htne
    | cons t1 ts =>
      obtain ⟨ht1ne, ht1an⟩ := htoks t1 (List.mem_cons_self _ _)
      cases t1 with
      | nil => exact absurd rfl ht1ne
      | cons c0 t1x =>
        have hc0 : c0.isAlphanum = true := ht1an c0 (List.mem_cons_self _ _)
        rw [hpeq, joinDots_cons] at heq
        have hhead := congrArg List.head? heq
        simp at hhead
        rw [← hhead] at hc0
        exact absurd hc0 (by decide)

/-- C5 amended: the stripping step removes from the displayed text exactly a
leading substring of the form "one or more word-character tokens (letters,
digits or underscore), each separated from the next by a dot, terminated by
a literal dot or closing parenthesis, followed by optional whitespace which
is removed as well" — if such a prefix exists one is removed, otherwise the
text is unchanged — and the stripping step runs if and only if a non-empty
label was produced for the paragraph. -/
theorem c5_strip_grammar_amended :
    (∀ s : String,
      ((∃ p t, codeGrammarMatch p ∧ s.data = p ++ t) →
        ∃ p, codeGrammarMatch p ∧ p ≠ [] ∧ s.data = p ++ (stripLeadingNumeral s).data) ∧
      ((¬∃ p t, codeGrammarMatch p ∧ s.data = p ++ t) → stripLeadingNumeral s = s)) ∧
    (∀ (catalog : Catalog) (st : TrackerState) (ref : Option (String × Nat)) (raw : String),
      ((extractTextFromParagraph catalog st ref raw).2.1 ≠ "" →
        (extractTextFromParagraph catalog st ref raw).2.2 = stripLeadingNumeral raw) ∧
      ((extractTextFromParagraph catalog st ref raw).2.1 = "" →
        (extractTextFromParagraph catalog st ref raw).2.2 = raw)) := by
  constructor
  · intro s
    constructor
    · rintro ⟨p, t, hp, heq⟩
      obtain ⟨t1, c, rs, hpeq, ht1ne, ht1w, hc⟩ := codeGrammarMatch_decomp p hp
      have hs : s.data = t1 ++ (c :: (rs ++ t)) := by
        rw [heq, hpeq]
        simp
      have hcW : isW c = false := by rcases hc with rfl | rfl <;> decide
      have hsplit := takeWhile_append_all isW t1 (c :: (rs ++ t)) ht1w
        (fun d x hx => by
          injection hx with h1 _
          rw [← h1]
          exact hcW)
      have htk : s.data.takeWhile isW = t1 := by rw [hs]; exact hsplit.1
      have hdr : s.data.dropWhile isW = c :: (rs ++ t) := by rw [hs]; exact hsplit.2
      have hwf : (s.data.takeWhile isW).isEmpty = false := by
        rw [htk]
        cases t1 with
        | nil => exact absurd rfl ht1ne
        | cons a b => rfl
      obtain ⟨r, hr⟩ : ∃ r,
          matchTailF (s.data.dropWhile isW).length (s.data.dropWhile isW) = some r := by
        rw [hdr]
        simp only [List.length_cons]
        exact matchTailF_head_some (rs ++ t).length c (rs ++ t) hc
      have hstr : stripLeadingNumeral s = String.mk r := strip_eq_of_some s r hwf hr
      rw [hstr]
      exact strip_some_grammar s r hwf hr
    · intro hno
      by_cases hw : (s.data.takeWhile isW).isEmpty = true
      · simp [stripLeadingNumeral, hw]
      · have hwf : (s.data.takeWhile isW).isEmpty = false := by
          revert hw
          cases (s.data.takeWhile isW).isEmpty <;> simp
        cases hm : matchTailF (s.data.dropWhile isW).length (s.data.dropWhile isW) with
        | none => simp [stripLeadingNumeral, hwf, hm]
        | some r =>
          obtain ⟨p, hgp, _, hseq⟩ := strip_some_grammar s r hwf hm
          exact absurd ⟨p, r, hgp, hseq⟩ hno
  · intro catalog st ref raw
    constructor
    · intro hne
      by_cases hb : (observe catalog st ref).2 = ""
      · exact absurd hb hne
      · show (if (observe catalog st ref).2 = "" then raw else stripLeadingNumeral raw) =
          stripLeadingNumeral raw
        rw [if_neg hb]
    · intro hbe
      show (if (observe catalog st ref).2 = "" then raw else stripLeadingNumeral raw) = raw
      exact if_pos hbe

/-- C5 witness: the amended theorem applied to the concrete paragraph text
"1. Scope" carrying the produced label "1". -/
theorem c5_strip_grammar_witness :
    (∃ p, codeGrammarMatch p ∧ p ≠ [] ∧
      ("1. Scope" : String).data = p ++ (stripLeadingNumeral "1. Scope").data) ∧
    (extractTextFromParagraph emptyCat initialState (some ("n1", 0)) "1. Scope").2.2 =
      stripLeadingNumeral "1. Scope" := by
  constructor
  · exact (c5_strip_grammar_amended.1 "1. Scope").1
      ⟨['1', '.', ' '], "Scope".data,
        ⟨[['1']], '.', [' '], by decide,
          by
            intro g hg
            rw [List.mem_singleton.mp hg]
            exact ⟨by decide, by decide⟩,
          Or.inl rfl, by decide, by decide⟩,
        by decide⟩
  · exact (c5_strip_grammar_amended.2 emptyCat initialState (some ("n1", 0)) "1. Scope").1
      (by decide)
